import Mathlib

/-!
Shallow embedding of the ChainWatch detection and risk-scoring engine
(`backend/app/services/risk_engine.py`, `flash_loan.py`, `graph_analysis.py`,
`ml_engine.py`, and `backend/app/config.py`), together with proofs checking
the specification's claims about it.

Python `float` values are modelled as rationals (`ℚ`).  Python's
`round(x, n)` is modelled by `roundTo n`: multiply by `10^n`, round to the
nearest integer, divide by `10^n`.  Python rounds halves to even while
`roundTo` rounds halves up; no half-way case arises at any concrete input
used below, so the two conventions agree on every instance in this file.
-/

/-- Models Python's built-in `round(x, n)` on a non-negative number of
decimal digits `n` (ties are rounded up, see the file comment). -/
def roundTo (n : ℕ) (x : ℚ) : ℚ := (round (x * 10 ^ n) : ℚ) / 10 ^ n

lemma roundTo_nonneg (n : ℕ) {x : ℚ} (hx : 0 ≤ x) : 0 ≤ roundTo n x := by
  unfold roundTo
  have h10 : (0:ℚ) < 10 ^ n := by positivity
  have : (0:ℤ) ≤ round (x * 10 ^ n) := by
    rw [round_eq]
    have : (0:ℚ) ≤ x * 10 ^ n + 1 / 2 := by positivity
    exact Int.le_floor.2 (by exact_mod_cast this)
  have : (0:ℚ) ≤ (round (x * 10 ^ n) : ℚ) := by exact_mod_cast this
  positivity

lemma roundTo_mono (n : ℕ) {x y : ℚ} (h : x ≤ y) : roundTo n x ≤ roundTo n y := by
  unfold roundTo
  have h10 : (0:ℚ) < 10 ^ n := by positivity
  have hr : round (x * 10 ^ n) ≤ round (y * 10 ^ n) := by
    rw [round_eq, round_eq]
    exact Int.floor_le_floor (by nlinarith)
  have hr' : ((round (x * 10 ^ n) : ℤ) : ℚ) ≤ ((round (y * 10 ^ n) : ℤ) : ℚ) := by
    exact_mod_cast hr
  exact div_le_div_of_nonneg_right hr' h10.le

lemma roundTo_intCast (n : ℕ) (m : ℤ) : roundTo n (m : ℚ) = m := by
  unfold roundTo
  have h10 : ((10:ℚ) ^ n) ≠ 0 := by positivity
  have : (m : ℚ) * 10 ^ n = ((m * 10 ^ n : ℤ) : ℚ) := by push_cast; ring
  rw [this, round_intCast]
  push_cast
  field_simp

lemma roundTo_natCast (n : ℕ) (m : ℕ) : roundTo n (m : ℚ) = m := by
  have := roundTo_intCast n (m : ℤ)
  simpa using this

lemma roundTo_le_of_le (n : ℕ) {x c : ℚ} (hx : x ≤ c) (hc : roundTo n c = c) :
    roundTo n x ≤ c := by
  calc roundTo n x ≤ roundTo n c := roundTo_mono n hx
  _ = c := hc

/-- Models one stored transaction (table `transactions` in `database.py`);
only the columns read by the detection engine are modelled.
`toAddress = none` models a NULL `to_address` (contract creation). -/
structure Tx where
  txHash : String
  blockNumber : ℕ
  fromAddress : String
  toAddress : Option String
  valueEth : ℚ
  timestamp : ℚ
deriving DecidableEq

/-! ## Flash-loan detector (`flash_loan.py`)

`FlashLoanDetector.__init__` defaults: `value_tolerance = 0.05`,
`min_value_eth = 1.0`; the singleton `flash_loan_detector` uses these. -/

def value_tolerance : ℚ := 5 / 100

def min_value_eth : ℚ := 1

/-- Accumulated inflow of wallet `w` within block `b`: the `"inflow"` field
of `block_wallet[b][w]` built in `FlashLoanDetector.detect` (lines 44-54). -/
def inflowAt (txs : List Tx) (b : ℕ) (w : String) : ℚ :=
  ((txs.filter fun t => decide (t.blockNumber = b ∧ t.toAddress = some w)).map Tx.valueEth).sum

/-- Accumulated outflow of wallet `w` within block `b` (`detect`, lines 44-54). -/
def outflowAt (txs : List Tx) (b : ℕ) (w : String) : ℚ :=
  ((txs.filter fun t => decide (t.blockNumber = b ∧ t.fromAddress = w)).map Tx.valueEth).sum

/-- Key set of the `block_wallet` grouping of `FlashLoanDetector.detect`:
every `(block, sender)` and, when a recipient exists, `(block, recipient)`.
The Python dict iterates keys in insertion order; only membership matters to
the claims below. -/
def blockWalletPairs (txs : List Tx) : List (ℕ × String) :=
  (txs.flatMap fun t =>
      (t.blockNumber, t.fromAddress) ::
        (match t.toAddress with
          | some r => [(t.blockNumber, r)]
          | none => [])).dedup

/-- Relative inflow/outflow difference for `(b, w)` (`detect`, lines 67-69). -/
def diffRatioAt (txs : List Tx) (b : ℕ) (w : String) : ℚ :=
  let maxVal := max (inflowAt txs b w) (outflowAt txs b w)
  let minVal := min (inflowAt txs b w) (outflowAt txs b w)
  if 0 < maxVal then (maxVal - minVal) / maxVal else 1

/-- Models one entry of the `suspects` list built by `FlashLoanDetector.detect`
(lines 73-86).  The `explanation` string is presentation-only and is not
modelled; `txHashes` models `list(set(flows["tx_hashes"]))[:10]` up to the
(unspecified) iteration order of the Python set. -/
structure FlashSuspect where
  wallet : String
  blockNumber : ℕ
  inflowEth : ℚ
  outflowEth : ℚ
  valueDifferencePct : ℚ
  flashLoanScore : ℚ
  txHashes : List String
deriving DecidableEq

/-- The suspect record appended for a qualifying `(block, wallet)` key
(`detect`, lines 73-86). -/
def flashSuspectOf (txs : List Tx) (bw : ℕ × String) : FlashSuspect :=
  { wallet := bw.2
    blockNumber := bw.1
    inflowEth := roundTo 6 (inflowAt txs bw.1 bw.2)
    outflowEth := roundTo 6 (outflowAt txs bw.1 bw.2)
    valueDifferencePct := roundTo 2 (diffRatioAt txs bw.1 bw.2 * 100)
    flashLoanScore := roundTo 2 ((1 - diffRatioAt txs bw.1 bw.2) * 100)
    txHashes := ((txs.filter fun t => decide (t.blockNumber = bw.1 ∧
        (t.fromAddress = bw.2 ∨ t.toAddress = some bw.2))).map Tx.txHash).dedup.take 10 }

/-- Loop body of `FlashLoanDetector.detect` for one `(block, wallet)` key
(lines 58-86): skip unless inflow and outflow both reach `min_value_eth`
and the relative difference is within `value_tolerance`; otherwise emit a
suspect entry scored `(1 - diff_ratio) * 100`. -/
def flashEntry (txs : List Tx) (bw : ℕ × String) : Option FlashSuspect :=
  if inflowAt txs bw.1 bw.2 < min_value_eth ∨ outflowAt txs bw.1 bw.2 < min_value_eth then
    none
  else if diffRatioAt txs bw.1 bw.2 ≤ value_tolerance then
    some (flashSuspectOf txs bw)
  else none

/-- Models `FlashLoanDetector.detect` (flash_loan.py lines 29-90): group by
`(block, wallet)`, apply `flashEntry` to every key, and sort descending by
score. -/
def flash_detect (txs : List Tx) : List FlashSuspect :=
  ((blockWalletPairs txs).filterMap (flashEntry txs)).mergeSort
    fun s1 s2 => decide (s2.flashLoanScore ≤ s1.flashLoanScore)

/-- Models `FlashLoanDetector.get_wallet_flash_score` (lines 92-98): the
maximum score among this wallet's detections, or 0 if there are none. -/
def get_wallet_flash_score (txs : List Tx) (address : String) : ℚ :=
  match (flash_detect txs).filter fun d => decide (d.wallet = address) with
  | [] => 0
  | d :: ds => ds.foldl (fun m x => max m x.flashLoanScore) d.flashLoanScore

/-! ## Graph analyzer (`graph_analysis.py`)

The NetworkX `DiGraph` built by `GraphAnalyzer.build_graph` is modelled as a
list of directed edges `(source, target, data)`; a `DiGraph` holds at most
one edge per ordered pair, which for an arbitrary graph value is the
`graphKeysNodup` hypothesis below (and holds for every graph `build_graph`
produces). -/

/-- Data stored on one directed edge by `build_graph` (lines 46-52). -/
structure EdgeData where
  weight : ℚ
  count : ℕ
  blocks : ℕ
deriving DecidableEq

/-- A directed wallet-interaction graph: edge list with data. -/
abbrev Graph := List (String × String × EdgeData)

/-- Well-formedness of a `DiGraph`: at most one edge per ordered pair. -/
def graphKeysNodup (g : Graph) : Prop :=
  (g.map fun e => (e.1, e.2.1)).Nodup

instance (g : Graph) : Decidable (graphKeysNodup g) := by
  unfold graphKeysNodup; infer_instance

/-- Transactions from `u` to `v` (those aggregated into edge `(u, v)` by the
`edge_data` loop of `build_graph`, lines 38-44; transactions with no
recipient are skipped there). -/
def txsBetween (txs : List Tx) (u v : String) : List Tx :=
  txs.filter fun t => decide (t.fromAddress = u ∧ t.toAddress = some v)

/-- Ordered pairs `(from_address, to_address)` occurring in the transaction
list: the key set of the `edge_data` dict of `build_graph`. -/
def edgeKeys (txs : List Tx) : List (String × String) :=
  (txs.filterMap fun t => t.toAddress.map fun r => (t.fromAddress, r)).dedup

/-- Models `GraphAnalyzer.build_graph` (graph_analysis.py lines 25-62): one
edge per ordered sender/recipient pair, carrying the summed value, the
transaction count, and the distinct-block count. -/
def build_graph (txs : List Tx) : Graph :=
  (edgeKeys txs).map fun k =>
    (k.1, k.2,
      { weight := ((txsBetween txs k.1 k.2).map Tx.valueEth).sum
        count := (txsBetween txs k.1 k.2).length
        blocks := ((txsBetween txs k.1 k.2).map Tx.blockNumber).dedup.length })

/-- Node set of the graph: every endpoint of an edge (NetworkX `add_edge`
creates both endpoint nodes; `build_graph` adds nodes in no other way). -/
def graph_nodes (g : Graph) : List String :=
  (g.flatMap fun e => [e.1, e.2.1]).dedup

/-- Models NetworkX `G.has_edge(u, v)`. -/
def has_edge (g : Graph) (u v : String) : Bool :=
  g.any fun e => decide (e.1 = u ∧ e.2.1 = v)

/-- Models the NetworkX edge-data access `G[u][v]`. -/
def get_edge (g : Graph) (u v : String) : Option EdgeData :=
  (g.find? fun e => decide (e.1 = u ∧ e.2.1 = v)).map fun e => e.2.2

/-- Models one entry of the `suspicious_pairs` list built by
`GraphAnalyzer.detect_wash_trading` (lines 110-121). -/
structure WashPair where
  walletA : String
  walletB : String
  valueAToB : ℚ
  valueBToA : ℚ
  valueSimilarity : ℚ
  txCountAToB : ℕ
  txCountBToA : ℕ
  suspicionScore : ℚ
deriving DecidableEq

/-- Weight similarity of `detect_wash_trading` (lines 105-107):
`min_val / max_val if max_val > 0 else 0`. -/
def similarityOf (x y : ℚ) : ℚ :=
  if 0 < max x y then min x y / max x y else 0

/-- The pair record appended for one qualifying directed edge `e` with
reverse-edge data `dvu` (lines 110-121). -/
def washPairOf (e : String × String × EdgeData) (dvu : EdgeData) : WashPair :=
  { walletA := e.1
    walletB := e.2.1
    valueAToB := roundTo 6 e.2.2.weight
    valueBToA := roundTo 6 dvu.weight
    valueSimilarity := roundTo 4 (similarityOf e.2.2.weight dvu.weight)
    txCountAToB := e.2.2.count
    txCountBToA := dvu.count
    suspicionScore := roundTo 2 (similarityOf e.2.2.weight dvu.weight * 50 +
      ((min (e.2.2.count + dvu.count) 10 : ℕ) : ℚ) * 5) }

/-- Loop body of `detect_wash_trading` for one directed edge (lines 94-121):
emit a pair when the reverse edge exists and the weight similarity exceeds
0.8 (edges whose two weights are both 0 are skipped). -/
def washEntry (g : Graph) (e : String × String × EdgeData) : Option WashPair :=
  match get_edge g e.2.1 e.1 with
  | none => none
  | some dvu =>
    if e.2.2.weight = 0 ∧ dvu.weight = 0 then none
    else if 4 / 5 < similarityOf e.2.2.weight dvu.weight then some (washPairOf e dvu)
    else none

/-- The `suspicious_pairs` list of `detect_wash_trading` before
deduplication (lines 92-121). -/
def washRaw (g : Graph) : List WashPair :=
  g.filterMap (washEntry g)

/-- Sorted (unordered) pair key, `tuple(sorted([wallet_a, wallet_b]))`
(line 127). -/
def pairKey (p : WashPair) : String × String :=
  if p.walletA ≤ p.walletB then (p.walletA, p.walletB) else (p.walletB, p.walletA)

/-- The `seen`-set deduplication loop of `detect_wash_trading`
(lines 124-130): keep the first entry for each unordered pair key. -/
def dedupPairs : List WashPair → List (String × String) → List WashPair
  | [], _ => []
  | p :: rest, seen =>
    if pairKey p ∈ seen then dedupPairs rest seen
    else p :: dedupPairs rest (pairKey p :: seen)

/-- Models `GraphAnalyzer.detect_wash_trading` (lines 83-134): scan,
deduplicate by sorted pair key, sort descending by suspicion score. -/
def detect_wash_trading (g : Graph) : List WashPair :=
  (dedupPairs (washRaw g) []).mergeSort fun p q => decide (q.suspicionScore ≤ p.suspicionScore)

/-- Out-degree of `a`: number of outgoing edges. -/
def out_degree (g : Graph) (a : String) : ℕ :=
  (g.filter fun e => decide (e.1 = a)).length

/-- In-degree of `a`: number of incoming edges. -/
def in_degree (g : Graph) (a : String) : ℕ :=
  (g.filter fun e => decide (e.2.1 = a)).length

/-- NetworkX `DiGraph.degree(a)` is in-degree plus out-degree (a self-loop
counts once in each). -/
def node_degree (g : Graph) (a : String) : ℕ :=
  out_degree g a + in_degree g a

/-- Models `nx.degree_centrality(G).get(a, 0)`: `degree / (len(G) - 1)`,
with every node given centrality 1 when the graph has at most one node, and
0 for an address that is not a node. -/
def degree_centrality (g : Graph) (a : String) : ℚ :=
  if a ∈ graph_nodes g then
    if (graph_nodes g).length ≤ 1 then 1
    else (node_degree g a : ℚ) / (((graph_nodes g).length : ℚ) - 1)
  else 0

/-- Models `set(self.graph.successors(address))`. -/
def successorsOf (g : Graph) (a : String) : List String :=
  ((g.filter fun e => decide (e.1 = a)).map fun e => e.2.1).dedup

/-- Models `set(self.graph.predecessors(address))`. -/
def predecessorsOf (g : Graph) (a : String) : List String :=
  ((g.filter fun e => decide (e.2.1 = a)).map fun e => e.1).dedup

/-- The neighbour set of `get_wallet_graph_score` (line 207): successors
union predecessors. -/
def neighborsOf (g : Graph) (a : String) : List String :=
  (successorsOf g a ++ predecessorsOf g a).dedup

/-- Count of neighbours connected in both directions (lines 208-211). -/
def bidirectionalCount (g : Graph) (a : String) : ℕ :=
  ((neighborsOf g a).filter fun n => has_edge g a n && has_edge g n a).length

/-- Models `GraphAnalyzer.get_wallet_graph_score` (lines 192-218). -/
def get_wallet_graph_score (g : Graph) (address : String) : ℚ :=
  if address ∈ graph_nodes g then
    let s1 := degree_centrality g address * 30
    let s2 :=
      if neighborsOf g address ≠ [] then
        ((bidirectionalCount g address : ℚ) / ((neighborsOf g address).length : ℚ)) * 40
      else 0
    let s3 := ((min (node_degree g address) 20 : ℕ) : ℚ) * (3 / 2)
    min (roundTo 2 (s1 + s2 + s3)) 100
  else 0

/-! ## ML engine (`ml_engine.py`)

Only the parts of `MLEngine` that the claims touch are modelled: the
per-wallet totals and inflow/outflow ratio of `extract_features`, the wallet
key set of the `wallet_data` dict, and the dataflow of `train` / `predict` /
`update_wallet_profiles`.  The fitted scikit-learn models themselves
(IsolationForest, KMeans) are represented by an abstract scoring function
where needed. -/

/-- Sum of `sent_values` for `addr` in `extract_features` (line 87): the
sender entry is recorded for every transaction. -/
def total_value_sent (txs : List Tx) (a : String) : ℚ :=
  ((txs.filter fun t => decide (t.fromAddress = a)).map Tx.valueEth).sum

/-- Sum of `received_values` for `addr` in `extract_features` (line 88): a
receiver entry is recorded only when a recipient exists. -/
def total_value_received (txs : List Tx) (a : String) : ℚ :=
  ((txs.filter fun t => decide (t.toAddress = some a)).map Tx.valueEth).sum

/-- Models lines 93-95 of `extract_features`: a total is replaced by the
epsilon `0.001` when it is not strictly positive, then the ratio is taken. -/
def inflow_outflow_ratio (txs : List Tx) (a : String) : ℚ :=
  (if 0 < total_value_received txs a then total_value_received txs a else 1 / 1000) /
    (if 0 < total_value_sent txs a then total_value_sent txs a else 1 / 1000)

/-- Key set of the `wallet_data` dict of `extract_features`: every sender,
and every recipient of a transaction that has one.  Its length is the
`len(addresses)` that `train` and `predict` compare with 5. -/
def feature_wallets (txs : List Tx) : List String :=
  (txs.flatMap fun t => t.fromAddress :: t.toAddress.toList).dedup

/-- Result of `MLEngine.train` (lines 129-156). -/
inductive TrainResult
  | insufficient_data (wallets : ℕ)
  | trained (wallets clusters : ℕ)
deriving DecidableEq

/-- Default `N_CLUSTERS` from `config.py`. -/
def N_CLUSTERS : ℕ := 5

/-- Models `MLEngine.train` (lines 129-156): below 5 wallets it reports
`insufficient_data` and fits nothing; otherwise it fits the models and
reports the wallet count and effective cluster count
`min(N_CLUSTERS, len(addresses))`. -/
def ml_train (txs : List Tx) : TrainResult :=
  if (feature_wallets txs).length < 5 then
    .insufficient_data (feature_wallets txs).length
  else
    .trained (feature_wallets txs).length (min N_CLUSTERS (feature_wallets txs).length)

/-- Models `MLEngine.predict` (lines 158-194): the empty list below 5
wallets; otherwise one `(address, anomaly_score, cluster_label)` triple per
wallet, whose scores come from the fitted IsolationForest / KMeans —
represented here by the abstract `model` parameter. -/
def ml_predict (model : String → ℚ × ℕ) (txs : List Tx) : List (String × ℚ × ℕ) :=
  if (feature_wallets txs).length < 5 then []
  else (feature_wallets txs).map fun a => (a, model a)

/-- Models `MLEngine.update_wallet_profiles` (lines 196-222) restricted to
the `risk_score` column: upsert one profile row per prediction.  A profile
store is an association list `address ↦ risk_score`. -/
def update_wallet_profiles (profiles : List (String × ℚ))
    (preds : List (String × ℚ × ℕ)) : List (String × ℚ) :=
  preds.foldl
    (fun ps pred =>
      if ps.any fun e => decide (e.1 = pred.1) then
        ps.map fun e => if e.1 = pred.1 then (e.1, pred.2.1) else e
      else ps ++ [(pred.1, pred.2.1)])
    profiles

/-- Models line 31-32 of `RiskEngine.compute_risk`: the ML component is the
stored profile's `risk_score`, or 0 when the wallet has no profile. -/
def ml_score_of (profiles : List (String × ℚ)) (address : String) : ℚ :=
  match profiles.find? fun e => decide (e.1 = address) with
  | some e => e.2
  | none => 0

/-! ## Risk engine (`risk_engine.py`, weights from `config.py`) -/

/-- The `RISK_WEIGHTS` dict of `config.py` (lines 31-36). -/
structure RiskWeights where
  ml_anomaly : ℚ
  graph_suspicion : ℚ
  flash_loan : ℚ
  wash_trade : ℚ

/-- Configured default weights. -/
def RISK_WEIGHTS : RiskWeights :=
  { ml_anomaly := 35 / 100
    graph_suspicion := 25 / 100
    flash_loan := 20 / 100
    wash_trade := 20 / 100 }

/-- Models the wash-trade component of `compute_risk` (lines 41-45): the
maximum suspicion score over pairs containing the wallet, 0 if none. -/
def wash_score_of (pairs : List WashPair) (address : String) : ℚ :=
  pairs.foldl
    (fun w p => if p.walletA = address ∨ p.walletB = address then max w p.suspicionScore else w)
    0

/-- The result dict of `RiskEngine.compute_risk` (lines 79-88).  The
`explanation` string is presentation-only and not modelled. -/
structure RiskResult where
  wallet_address : String
  composite_score : ℚ
  ml_anomaly_score : ℚ
  graph_score : ℚ
  flash_loan_score : ℚ
  wash_trade_score : ℚ
  severity : String
deriving DecidableEq

/-- The severity ladder of `compute_risk` (lines 69-77). -/
def severity_of (composite : ℚ) : String :=
  if 75 ≤ composite then "critical"
  else if 50 ≤ composite then "high"
  else if 25 ≤ composite then "medium"
  else "low"

/-- Models `RiskEngine.compute_risk` (lines 25-104) as a function of the four
component scores it gathers (ML from the stored profile, graph from
`get_wallet_graph_score`, flash from `get_wallet_flash_score`, wash the
maximum over wash pairs containing the wallet). -/
def compute_risk (address : String) (ml_score graph_score flash_score wash_score : ℚ) :
    RiskResult :=
  let composite :=
    min (roundTo 2 (RISK_WEIGHTS.ml_anomaly * ml_score +
      RISK_WEIGHTS.graph_suspicion * graph_score +
      RISK_WEIGHTS.flash_loan * flash_score +
      RISK_WEIGHTS.wash_trade * wash_score)) 100
  { wallet_address := address
    composite_score := composite
    ml_anomaly_score := roundTo 2 ml_score
    graph_score := roundTo 2 graph_score
    flash_loan_score := roundTo 2 flash_score
    wash_trade_score := roundTo 2 wash_score
    severity := severity_of composite }

/-- Models the `RiskScore` upsert of `compute_risk` (lines 90-102) on a store
keyed by wallet address: overwrite the existing row, else append a new one. -/
def upsert_risk_score (store : List (String × RiskResult)) (r : RiskResult) :
    List (String × RiskResult) :=
  if store.any fun e => decide (e.1 = r.wallet_address) then
    store.map fun e => if e.1 = r.wallet_address then (e.1, r) else e
  else store ++ [(r.wallet_address, r)]

/-- Reading a stored risk row back by wallet address. -/
def lookup_risk_score (store : List (String × RiskResult)) (a : String) : Option RiskResult :=
  (store.find? fun e => decide (e.1 = a)).map fun e => e.2

/-- Models one `Alert` row (`database.py`), restricted to the fields
`run_full_detection` fills. -/
structure Alert where
  wallet_address : String
  alert_type : String
  severity : String
  risk_score : ℚ
deriving DecidableEq

/-- The alert-type priority chain of `run_full_detection` (lines 141-147),
applied to the risk dict returned by `compute_risk`. -/
def alert_type_of (r : RiskResult) : String :=
  if 50 < r.flash_loan_score then "flash_loan"
  else if 40 < r.wash_trade_score then "wash_trade"
  else if 30 < r.graph_score then "high_centrality"
  else "anomaly"

/-- The per-wallet alert decision of `run_full_detection` (lines 140-157):
an alert exactly when the composite score is at least 40. -/
def alert_for (r : RiskResult) : Option Alert :=
  if 40 ≤ r.composite_score then
    some { wallet_address := r.wallet_address
           alert_type := alert_type_of r
           severity := r.severity
           risk_score := r.composite_score }
  else none

/-- The four component scores the pipeline feeds `compute_risk` for one
profiled wallet. -/
structure ProfileSignals where
  address : String
  ml_score : ℚ
  graph_score : ℚ
  flash_score : ℚ
  wash_score : ℚ

/-- The risk dict `compute_risk` returns for one profiled wallet. -/
def risk_of (p : ProfileSignals) : RiskResult :=
  compute_risk p.address p.ml_score p.graph_score p.flash_score p.wash_score

/-- Models the alert-generation loop of `RiskEngine.run_full_detection`
(lines 132-157): for every currently profiled wallet compute the composite
risk and append an alert when it is at least 40. -/
def run_full_detection_alerts (profiles : List ProfileSignals) : List Alert :=
  profiles.filterMap fun p => alert_for (risk_of p)

/-! ## Helper lemmas -/

lemma find?_map_upsert (a : String) (r : RiskResult) :
    ∀ store : List (String × RiskResult),
      (store.any fun e => decide (e.1 = a)) = true →
      ((store.map fun e => if e.1 = a then (e.1, r) else e).find? fun e => decide (e.1 = a)) =
        some (a, r) := by
  intro store
  induction store with
  | nil => simp
  | cons e t ih =>
    intro hany
    by_cases he : e.1 = a
    · simp [List.find?, he]
    · have : (t.any fun e => decide (e.1 = a)) = true := by
        simpa [List.any_cons, he] using hany
      simpa [List.find?, he] using ih this

lemma find?_append_upsert (a : String) (r : RiskResult) :
    ∀ store : List (String × RiskResult),
      (store.any fun e => decide (e.1 = a)) = false →
      ((store ++ [(a, r)]).find? fun e => decide (e.1 = a)) = some (a, r) := by
  intro store
  induction store with
  | nil => simp
  | cons e t ih =>
    intro hany
    have he : ¬ e.1 = a := by
      intro h
      simp [List.any_cons, h] at hany
    have ht : (t.any fun e => decide (e.1 = a)) = false := by
      simpa [List.any_cons, he] using hany
    simpa [List.find?, he] using ih ht

/-- Upserting a risk record then reading the same wallet back returns the
record just written. -/
lemma lookup_upsert_risk_score (store : List (String × RiskResult)) (r : RiskResult) :
    lookup_risk_score (upsert_risk_score store r) r.wallet_address = some r := by
  unfold lookup_risk_score upsert_risk_score
  by_cases h : (store.any fun e => decide (e.1 = r.wallet_address)) = true
  · rw [if_pos h, find?_map_upsert _ _ _ h]
    rfl
  · rw [if_neg h, find?_append_upsert _ _ _ (Bool.eq_false_iff.mpr h)]
    rfl

/-! ## Claim C1 -/

/-- C1: for every wallet address and all non-negative component scores,
`compute_risk` returns and persists a composite equal to
`0.35*ml + 0.25*graph + 0.20*flash + 0.20*wash`, rounded to 2 decimals and
clamped to at most 100; the composite always lies in `[0, 100]` and depends
only on the four component inputs (and the configured weights), not on the
address. -/
theorem compute_risk_composite_spec (address address2 : String)
    (ml g f w : ℚ) (store : List (String × RiskResult))
    (hml : 0 ≤ ml) (hg : 0 ≤ g) (hf : 0 ≤ f) (hw : 0 ≤ w) :
    (compute_risk address ml g f w).composite_score =
      min (roundTo 2 (35 / 100 * ml + 25 / 100 * g + 20 / 100 * f + 20 / 100 * w)) 100 ∧
    0 ≤ (compute_risk address ml g f w).composite_score ∧
    (compute_risk address ml g f w).composite_score ≤ 100 ∧
    lookup_risk_score (upsert_risk_score store (compute_risk address ml g f w)) address =
      some (compute_risk address ml g f w) ∧
    (compute_risk address2 ml g f w).composite_score =
      (compute_risk address ml g f w).composite_score := by
  refine ⟨rfl, ?_, ?_, ?_, rfl⟩
  · have hsum : 0 ≤ 35 / 100 * ml + 25 / 100 * g + 20 / 100 * f + 20 / 100 * w := by
      positivity
    have h1 : 0 ≤ roundTo 2 (35 / 100 * ml + 25 / 100 * g + 20 / 100 * f + 20 / 100 * w) :=
      roundTo_nonneg 2 hsum
    have h2 : (0:ℚ) ≤ 100 := by norm_num
    exact le_min h1 h2
  · exact min_le_right _ _
  · exact lookup_upsert_risk_score store (compute_risk address ml g f w)

/-- Closed instance of `compute_risk_composite_spec` at concrete inputs. -/
theorem compute_risk_composite_spec_witness :
    (compute_risk "0xaaa" 60 40 20 10).composite_score =
      min (roundTo 2 (35 / 100 * 60 + 25 / 100 * 40 + 20 / 100 * 20 + 20 / 100 * 10)) 100 ∧
    0 ≤ (compute_risk "0xaaa" 60 40 20 10).composite_score ∧
    (compute_risk "0xaaa" 60 40 20 10).composite_score ≤ 100 ∧
    lookup_risk_score (upsert_risk_score [] (compute_risk "0xaaa" 60 40 20 10)) "0xaaa" =
      some (compute_risk "0xaaa" 60 40 20 10) ∧
    (compute_risk "0xbbb" 60 40 20 10).composite_score =
      (compute_risk "0xaaa" 60 40 20 10).composite_score :=
  compute_risk_composite_spec "0xaaa" "0xbbb" 60 40 20 10 []
    (by norm_num) (by norm_num) (by norm_num) (by norm_num)

/-! ## Claim C2 -/

/-- C2: the severity assigned by `compute_risk` uses inclusive lower bounds
75 / 50 / 25 on the composite score, and the boundary values behave exactly
as claimed: 75.00 is critical, 74.99 high, 50.00 high, 49.99 medium, 25.00
medium and 24.99 low. -/
theorem compute_risk_severity_spec (c : ℚ) :
    (severity_of c = "critical" ↔ 75 ≤ c) ∧
    (severity_of c = "high" ↔ 50 ≤ c ∧ c < 75) ∧
    (severity_of c = "medium" ↔ 25 ≤ c ∧ c < 50) ∧
    (severity_of c = "low" ↔ c < 25) ∧
    (∀ address ml g f w, (compute_risk address ml g f w).severity =
      severity_of (compute_risk address ml g f w).composite_score) ∧
    severity_of 75 = "critical" ∧ severity_of (7499 / 100) = "high" ∧
    severity_of 50 = "high" ∧ severity_of (4999 / 100) = "medium" ∧
    severity_of 25 = "medium" ∧ severity_of (2499 / 100) = "low" := by
  have hcrit : ∀ x : ℚ, 75 ≤ x → severity_of x = "critical" := by
    intro x h
    unfold severity_of
    rw [if_pos h]
  have hhigh : ∀ x : ℚ, 50 ≤ x → x < 75 → severity_of x = "high" := by
    intro x h50 h75
    unfold severity_of
    rw [if_neg (not_le.mpr h75), if_pos h50]
  have hmed : ∀ x : ℚ, 25 ≤ x → x < 50 → severity_of x = "medium" := by
    intro x h25 h50
    unfold severity_of
    rw [if_neg (not_le.mpr (h50.trans (by norm_num))), if_neg (not_le.mpr h50), if_pos h25]
  have hlow : ∀ x : ℚ, x < 25 → severity_of x = "low" := by
    intro x h25
    unfold severity_of
    rw [if_neg (not_le.mpr (h25.trans (by norm_num))),
      if_neg (not_le.mpr (h25.trans (by norm_num))), if_neg (not_le.mpr h25)]
  refine ⟨?_, ?_, ?_, ?_, fun address ml g f w => rfl,
    hcrit 75 (by norm_num), hhigh (7499 / 100) (by norm_num) (by norm_num),
    hhigh 50 (by norm_num) (by norm_num), hmed (4999 / 100) (by norm_num) (by norm_num),
    hmed 25 (by norm_num) (by norm_num), hlow (2499 / 100) (by norm_num)⟩
  · constructor
    · intro h
      by_cases h75 : 75 ≤ c
      · exact h75
      · exfalso
        rcases le_or_lt 50 c with h50 | h50
        · rw [hhigh c h50 (not_le.mp h75)] at h
          exact absurd h (by decide)
        · rcases le_or_lt 25 c with h25 | h25
          · rw [hmed c h25 h50] at h
            exact absurd h (by decide)
          · rw [hlow c h25] at h
            exact absurd h (by decide)
    · exact hcrit c
  · constructor
    · intro h
      by_cases h75 : 75 ≤ c
      · rw [hcrit c h75] at h
        exact absurd h (by decide)
      · rcases le_or_lt 50 c with h50 | h50
        · exact ⟨h50, not_le.mp h75⟩
        · exfalso
          rcases le_or_lt 25 c with h25 | h25
          · rw [hmed c h25 h50] at h
            exact absurd h (by decide)
          · rw [hlow c h25] at h
            exact absurd h (by decide)
    · rintro ⟨h50, h75⟩
      exact hhigh c h50 h75
  · constructor
    · intro h
      by_cases h75 : 75 ≤ c
      · rw [hcrit c h75] at h
        exact absurd h (by decide)
      · rcases le_or_lt 50 c with h50 | h50
        · rw [hhigh c h50 (not_le.mp h75)] at h
          exact absurd h (by decide)
        · rcases le_or_lt 25 c with h25 | h25
          · exact ⟨h25, h50⟩
          · rw [hlow c h25] at h
            exact absurd h (by decide)
    · rintro ⟨h25, h50⟩
      exact hmed c h25 h50
  · constructor
    · intro h
      by_cases h75 : 75 ≤ c
      · rw [hcrit c h75] at h
        exact absurd h (by decide)
      · rcases le_or_lt 50 c with h50 | h50
        · rw [hhigh c h50 (not_le.mp h75)] at h
          exact absurd h (by decide)
        · rcases le_or_lt 25 c with h25 | h25
          · rw [hmed c h25 h50] at h
            exact absurd h (by decide)
          · exact h25
    · exact hlow c

/-! ## Claim C3 -/

/-- C3: in the alert loop of `run_full_detection`, an alert is created for a
profiled wallet exactly when its composite risk score is at least 40, and
the alert type follows the fixed priority flash-loan (score above 50), then
wash-trade (above 40), then high-centrality (graph above 30), else anomaly,
read off the risk dict `compute_risk` returned. -/
theorem run_full_detection_alert_spec (profiles : List ProfileSignals)
    (p : ProfileSignals) (a : Alert) :
    (a ∈ run_full_detection_alerts profiles ↔
      ∃ q ∈ profiles, 40 ≤ (risk_of q).composite_score ∧
        a = { wallet_address := q.address
              alert_type := alert_type_of (risk_of q)
              severity := (risk_of q).severity
              risk_score := (risk_of q).composite_score }) ∧
    ((alert_for (risk_of p)).isSome ↔ 40 ≤ (risk_of p).composite_score) ∧
    (∀ b, alert_for (risk_of p) = some b →
      ((50 < (risk_of p).flash_loan_score → b.alert_type = "flash_loan") ∧
       ((risk_of p).flash_loan_score ≤ 50 → 40 < (risk_of p).wash_trade_score →
         b.alert_type = "wash_trade") ∧
       ((risk_of p).flash_loan_score ≤ 50 → (risk_of p).wash_trade_score ≤ 40 →
         30 < (risk_of p).graph_score → b.alert_type = "high_centrality") ∧
       ((risk_of p).flash_loan_score ≤ 50 → (risk_of p).wash_trade_score ≤ 40 →
         (risk_of p).graph_score ≤ 30 → b.alert_type = "anomaly"))) := by
  refine ⟨?_, ?_, ?_⟩
  · unfold run_full_detection_alerts
    rw [List.mem_filterMap]
    constructor
    · rintro ⟨q, hq, hsome⟩
      unfold alert_for at hsome
      by_cases h40 : 40 ≤ (risk_of q).composite_score
      · rw [if_pos h40] at hsome
        refine ⟨q, hq, h40, ?_⟩
        cases hsome
        rfl
      · rw [if_neg h40] at hsome
        cases hsome
    · rintro ⟨q, hq, h40, ha⟩
      refine ⟨q, hq, ?_⟩
      unfold alert_for
      rw [if_pos h40, ha]
      rfl
  · unfold alert_for
    by_cases h40 : 40 ≤ (risk_of p).composite_score
    · simp [if_pos h40, h40]
    · simp [if_neg h40, h40]
  · intro b hb
    unfold alert_for at hb
    by_cases h40 : 40 ≤ (risk_of p).composite_score
    · rw [if_pos h40] at hb
      cases hb
      unfold alert_type_of
      refine ⟨fun hfl => by rw [if_pos hfl], fun hfl hwt => ?_, fun hfl hwt hgr => ?_,
        fun hfl hwt hgr => ?_⟩
      · rw [if_neg (not_lt.mpr hfl), if_pos hwt]
      · rw [if_neg (not_lt.mpr hfl), if_neg (not_lt.mpr hwt), if_pos hgr]
      · rw [if_neg (not_lt.mpr hfl), if_neg (not_lt.mpr hwt), if_neg (not_lt.mpr hgr)]
    · rw [if_neg h40] at hb
      cases hb

/-- Closed instance of `run_full_detection_alert_spec`: a profiled wallet
with signals (ml 80, graph 10, flash 60, wash 10) has composite 44.5 and
yields a flash-loan alert. -/
theorem run_full_detection_alert_spec_witness :
    ({ wallet_address := "0xw", alert_type := "flash_loan", severity := "medium",
       risk_score := 89 / 2 } : Alert) ∈
      run_full_detection_alerts [⟨"0xw", 80, 10, 60, 10⟩] := by
  apply (run_full_detection_alert_spec [⟨"0xw", 80, 10, 60, 10⟩] ⟨"0xw", 80, 10, 60, 10⟩
      ⟨"0xw", "flash_loan", "medium", 89 / 2⟩).1.mpr
  refine ⟨⟨"0xw", 80, 10, 60, 10⟩, by simp, ?_, ?_⟩
  · norm_num [risk_of, compute_risk, RISK_WEIGHTS, roundTo, round_eq, min_def]
  · norm_num [risk_of, compute_risk, RISK_WEIGHTS, roundTo, round_eq, min_def,
      severity_of, alert_type_of]

/-! ## Claim C8 -/

lemma sum_filter_values_nonneg (txs : List Tx) (p : Tx → Bool)
    (hv : ∀ t ∈ txs, 0 ≤ t.valueEth) :
    0 ≤ ((txs.filter p).map Tx.valueEth).sum := by
  apply List.sum_nonneg
  intro x hx
  rcases List.mem_map.mp hx with ⟨t, ht, rfl⟩
  exact hv t (List.mem_of_mem_filter ht)

/-- Modelled from the spec's words, for comparison with the code's
`inflow_outflow_ratio` (claim C8): both totals floored to the epsilon
`0.001` before the division. -/
def inflow_outflow_ratio_flooredSpec (txs : List Tx) (a : String) : ℚ :=
  max (total_value_received txs a) (1 / 1000) / max (total_value_sent txs a) (1 / 1000)

/-- Concrete input for C8: wallet B has received a dust total of `0.0005`
(strictly between 0 and the epsilon) and sent nothing. -/
def c8txs : List Tx := [⟨"h1", 1, "A", some "B", 1 / 2000, 0⟩]

/-- C8 counterexample: the code divides the raw received total `0.0005` by
the epsilon (ratio 0.5); flooring both totals to the epsilon, as the claim
states, would give ratio 1. -/
theorem inflow_outflow_ratio_not_floored :
    inflow_outflow_ratio c8txs "B" = 1 / 2 ∧
    inflow_outflow_ratio_flooredSpec c8txs "B" = 1 ∧
    ((1 : ℚ) / 2) ≠ 1 := by
  refine ⟨?_, ?_, by norm_num⟩ <;>
    · simp [inflow_outflow_ratio, inflow_outflow_ratio_flooredSpec,
        total_value_received, total_value_sent, c8txs,
        List.filter_cons, List.filter_nil, decide_eq_true_eq]
      norm_num [max_def]

/-- C8 (amended): the ratio divides the raw totals after replacing only a
non-positive total by the epsilon `0.001`; it is finite and strictly
positive for non-negative transaction values, and it agrees with the
both-floored reading whenever each total is either zero or at least the
epsilon. -/
theorem inflow_outflow_ratio_spec (txs : List Tx) (a : String)
    (hv : ∀ t ∈ txs, 0 ≤ t.valueEth) :
    0 < inflow_outflow_ratio txs a ∧
    ((total_value_received txs a = 0 ∨ 1 / 1000 ≤ total_value_received txs a) →
      (total_value_sent txs a = 0 ∨ 1 / 1000 ≤ total_value_sent txs a) →
      inflow_outflow_ratio txs a = inflow_outflow_ratio_flooredSpec txs a) := by
  have hrec : 0 ≤ total_value_received txs a := sum_filter_values_nonneg txs _ hv
  have hsent : 0 ≤ total_value_sent txs a := sum_filter_values_nonneg txs _ hv
  constructor
  · unfold inflow_outflow_ratio
    apply div_pos
    · split_ifs with h
      · exact h
      · norm_num
    · split_ifs with h
      · exact h
      · norm_num
  · intro hr hs
    unfold inflow_outflow_ratio inflow_outflow_ratio_flooredSpec
    have hnum : (if 0 < total_value_received txs a then total_value_received txs a
        else 1 / 1000) = max (total_value_received txs a) (1 / 1000) := by
      rcases hr with h0 | heps
      · rw [h0]
        norm_num
      · rw [if_pos (lt_of_lt_of_le (by norm_num) heps), max_eq_left heps]
    have hden : (if 0 < total_value_sent txs a then total_value_sent txs a
        else 1 / 1000) = max (total_value_sent txs a) (1 / 1000) := by
      rcases hs with h0 | heps
      · rw [h0]
        norm_num
      · rw [if_pos (lt_of_lt_of_le (by norm_num) heps), max_eq_left heps]
    rw [hnum, hden]

/-- Concrete input for the C8 witness: wallet B received 5 and sent 2. -/
def c8wtxs : List Tx := [⟨"h1", 1, "A", some "B", 5, 0⟩, ⟨"h2", 1, "B", some "A", 2, 0⟩]

/-- Closed instance of `inflow_outflow_ratio_spec` at a concrete input. -/
theorem inflow_outflow_ratio_spec_witness :
    (∀ t ∈ c8wtxs, 0 ≤ t.valueEth) ∧ 0 < inflow_outflow_ratio c8wtxs "B" :=
  ⟨by intro t ht; fin_cases ht <;> norm_num,
    (inflow_outflow_ratio_spec c8wtxs "B"
      (by intro t ht; fin_cases ht <;> norm_num)).1⟩

/-! ## Claim C9 -/

/-- C9: with fewer than 5 distinct wallets in the feature extraction,
`train` reports `insufficient_data` (fitting nothing), `predict` returns the
empty list regardless of any fitted model, the profile upsert is a no-op on
the empty prediction list, and a wallet without a stored profile gets ML
component 0 in risk scoring. -/
theorem ml_insufficient_data_spec (model : String → ℚ × ℕ) (txs : List Tx)
    (profiles : List (String × ℚ)) (a : String)
    (h5 : (feature_wallets txs).length < 5) :
    ml_train txs = .insufficient_data (feature_wallets txs).length ∧
    ml_predict model txs = [] ∧
    update_wallet_profiles profiles (ml_predict model txs) = profiles ∧
    ((profiles.find? fun e => decide (e.1 = a)) = none → ml_score_of profiles a = 0) := by
  have hp : ml_predict model txs = [] := by
    unfold ml_predict
    rw [if_pos h5]
  refine ⟨?_, hp, ?_, ?_⟩
  · unfold ml_train
    rw [if_pos h5]
  · rw [hp]
    rfl
  · intro hnone
    unfold ml_score_of
    rw [hnone]

/-- Concrete input for the C9 witness: two transactions over three wallets. -/
def c9txs : List Tx := [⟨"h1", 1, "A", some "B", 1, 0⟩, ⟨"h2", 2, "B", some "C", 2, 0⟩]

/-- Closed instance of `ml_insufficient_data_spec`: three wallets is below
the minimum of five. -/
theorem ml_insufficient_data_spec_witness :
    (feature_wallets c9txs).length < 5 ∧
    ml_train c9txs = .insufficient_data (feature_wallets c9txs).length ∧
    ml_predict (fun _ => (0, 0)) c9txs = [] ∧
    update_wallet_profiles [("0xp", 7)] (ml_predict (fun _ => (0, 0)) c9txs) = [("0xp", 7)] ∧
    (([("0xp", (7:ℚ))].find? fun e => decide (e.1 = "0xq")) = none →
      ml_score_of [("0xp", 7)] "0xq" = 0) :=
  ⟨by decide,
    ml_insufficient_data_spec (fun _ => (0, 0)) c9txs [("0xp", 7)] "0xq" (by decide)⟩

/-! ## Claim C4 -/

lemma roundTo_hundred : roundTo 2 (100 : ℚ) = 100 := by
  simpa using roundTo_natCast 2 100

lemma flashEntry_eq_some_iff (txs : List Tx) (bw : ℕ × String) (s : FlashSuspect) :
    flashEntry txs bw = some s ↔
      (min_value_eth ≤ inflowAt txs bw.1 bw.2 ∧ min_value_eth ≤ outflowAt txs bw.1 bw.2 ∧
        diffRatioAt txs bw.1 bw.2 ≤ value_tolerance ∧ s = flashSuspectOf txs bw) := by
  unfold flashEntry
  split_ifs with h1 h2
  · constructor
    · intro h
      cases h
    · rintro ⟨ha, hb, -, -⟩
      rcases h1 with h | h
      · exact absurd ha (not_le.mpr h)
      · exact absurd hb (not_le.mpr h)
  · rw [not_or, not_lt, not_lt] at h1
    rw [Option.some_inj]
    constructor
    · intro h
      exact ⟨h1.1, h1.2, h2, h.symm⟩
    · rintro ⟨-, -, -, h⟩
      exact h.symm
  · constructor
    · intro h
      cases h
    · rintro ⟨-, -, hc, -⟩
      exact absurd hc h2

lemma mem_flash_detect (txs : List Tx) (s : FlashSuspect) :
    s ∈ flash_detect txs ↔ ∃ bw ∈ blockWalletPairs txs, flashEntry txs bw = some s := by
  unfold flash_detect
  rw [List.mem_mergeSort, List.mem_filterMap]

lemma diffRatioAt_bounds (txs : List Tx) (b : ℕ) (w : String)
    (hin : min_value_eth ≤ inflowAt txs b w) (hout : min_value_eth ≤ outflowAt txs b w) :
    0 ≤ diffRatioAt txs b w ∧ diffRatioAt txs b w ≤ 1 := by
  have hin' : (1 : ℚ) ≤ inflowAt txs b w := hin
  have hout' : (1 : ℚ) ≤ outflowAt txs b w := hout
  have hmax : (0 : ℚ) < max (inflowAt txs b w) (outflowAt txs b w) :=
    lt_of_lt_of_le zero_lt_one (hin'.trans (le_max_left _ _))
  have hminv : (0 : ℚ) ≤ min (inflowAt txs b w) (outflowAt txs b w) :=
    le_trans zero_le_one (le_min hin' hout')
  unfold diffRatioAt
  rw [if_pos hmax]
  constructor
  · apply div_nonneg _ hmax.le
    have : min (inflowAt txs b w) (outflowAt txs b w) ≤
        max (inflowAt txs b w) (outflowAt txs b w) := min_le_max
    linarith
  · rw [div_le_one hmax]
    linarith

/-- C4 (amended): for every `(block, wallet)` pair of the grouping, the
flash-loan detector reports the pair exactly when inflow and outflow both
reach 1.0 and the relative difference is at most 0.05; every reported entry
for the pair carries score `(1 - diff_ratio) * 100` rounded to 2 decimals,
which always lies in `[0, 100]`; and a pair with equal inflow and outflow
(at least 1.0) is reported with score exactly 100. -/
theorem flash_detect_spec (txs : List Tx) (b : ℕ) (w : String)
    (hbw : (b, w) ∈ blockWalletPairs txs) :
    ((∃ s ∈ flash_detect txs, s.blockNumber = b ∧ s.wallet = w) ↔
      (min_value_eth ≤ inflowAt txs b w ∧ min_value_eth ≤ outflowAt txs b w ∧
        diffRatioAt txs b w ≤ value_tolerance)) ∧
    (∀ s ∈ flash_detect txs, s.blockNumber = b → s.wallet = w →
      (s.flashLoanScore = roundTo 2 ((1 - diffRatioAt txs b w) * 100) ∧
       0 ≤ s.flashLoanScore ∧ s.flashLoanScore ≤ 100)) ∧
    (inflowAt txs b w = outflowAt txs b w → min_value_eth ≤ inflowAt txs b w →
      ∃ s ∈ flash_detect txs, s.blockNumber = b ∧ s.wallet = w ∧ s.flashLoanScore = 100) := by
  refine ⟨⟨?_, ?_⟩, ?_, ?_⟩
  · rintro ⟨s, hs, hb, hw⟩
    rcases (mem_flash_detect txs s).mp hs with ⟨bw, hbw', hsome⟩
    rcases (flashEntry_eq_some_iff txs bw s).mp hsome with ⟨h1, h2, h3, hseq⟩
    subst hseq
    have hb1 : bw.1 = b := hb
    have hw1 : bw.2 = w := hw
    subst hb1
    subst hw1
    exact ⟨h1, h2, h3⟩
  · rintro ⟨h1, h2, h3⟩
    exact ⟨flashSuspectOf txs (b, w),
      (mem_flash_detect txs _).mpr
        ⟨(b, w), hbw, (flashEntry_eq_some_iff txs (b, w) _).mpr ⟨h1, h2, h3, rfl⟩⟩,
      rfl, rfl⟩
  · intro s hs hb hw
    rcases (mem_flash_detect txs s).mp hs with ⟨bw, hbw', hsome⟩
    rcases (flashEntry_eq_some_iff txs bw s).mp hsome with ⟨h1, h2, h3, hseq⟩
    subst hseq
    have hb1 : bw.1 = b := hb
    have hw1 : bw.2 = w := hw
    subst hb1
    subst hw1
    have hbounds := diffRatioAt_bounds txs bw.1 bw.2 h1 h2
    refine ⟨rfl, roundTo_nonneg 2 (by nlinarith [hbounds.2]), ?_⟩
    exact roundTo_le_of_le 2 (by nlinarith [hbounds.1]) roundTo_hundred
  · intro heq hin
    have hout : min_value_eth ≤ outflowAt txs b w := heq ▸ hin
    have hin' : (1 : ℚ) ≤ inflowAt txs b w := hin
    have hdr : diffRatioAt txs b w = 0 := by
      unfold diffRatioAt
      simp only [heq, max_self, min_self, sub_self, zero_div]
      rw [if_pos (lt_of_lt_of_le zero_lt_one (heq ▸ hin'))]
    have h3 : diffRatioAt txs b w ≤ value_tolerance := by
      rw [hdr]
      norm_num [value_tolerance]
    refine ⟨flashSuspectOf txs (b, w),
      (mem_flash_detect txs _).mpr
        ⟨(b, w), hbw, (flashEntry_eq_some_iff txs (b, w) _).mpr ⟨hin, hout, h3, rfl⟩⟩,
      rfl, rfl, ?_⟩
    show roundTo 2 ((1 - diffRatioAt txs b w) * 100) = 100
    rw [hdr, show ((1 : ℚ) - 0) * 100 = 100 by norm_num, roundTo_hundred]

/-- Concrete input for the C4 witness: wallet W receives 2 and sends 2
within block 5. -/
def c4wtxs : List Tx :=
  [⟨"a1", 5, "X", some "W", 2, 0⟩, ⟨"a2", 5, "W", some "Y", 2, 0⟩]

/-- Closed instance of `flash_detect_spec`: a wallet with equal inflow and
outflow of 2.0 in one block is reported with score exactly 100. -/
theorem flash_detect_spec_witness :
    ∃ s ∈ flash_detect c4wtxs, s.blockNumber = 5 ∧ s.wallet = "W" ∧ s.flashLoanScore = 100 :=
  (flash_detect_spec c4wtxs 5 "W" (by decide)).2.2
    (by simp [inflowAt, outflowAt, c4wtxs, List.filter_cons, List.filter_nil,
      decide_eq_true_eq])
    (by
      have h : inflowAt c4wtxs 5 "W" = 2 := by
        simp [inflowAt, c4wtxs, List.filter_cons, List.filter_nil, decide_eq_true_eq]
      rw [show min_value_eth = 1 from rfl, h]
      norm_num)

/-- Concrete input for the C4 counterexample: wallet A receives 3 and sends
2.99 in block 1, so the diff ratio `1/300` is not a 2-decimal number. -/
def c4txs : List Tx :=
  [⟨"f1", 1, "B", some "A", 3, 0⟩, ⟨"f2", 1, "A", some "C", 299 / 100, 0⟩]

lemma c4_inflow : inflowAt c4txs 1 "A" = 3 := by
  simp [inflowAt, c4txs, List.filter_cons, List.filter_nil, decide_eq_true_eq]

lemma c4_outflow : outflowAt c4txs 1 "A" = 299 / 100 := by
  simp [outflowAt, c4txs, List.filter_cons, List.filter_nil, decide_eq_true_eq]

lemma c4_diffRatio : diffRatioAt c4txs 1 "A" = 1 / 300 := by
  unfold diffRatioAt
  rw [c4_inflow, c4_outflow]
  norm_num [max_def, min_def]

lemma c4_detect : flash_detect c4txs = [flashSuspectOf c4txs (1, "A")] := by
  have hpairs : blockWalletPairs c4txs = [(1, "B"), (1, "A"), (1, "C")] := by decide
  have hB : flashEntry c4txs (1, "B") = none := by
    have h : inflowAt c4txs 1 "B" = 0 := by
      simp [inflowAt, c4txs, List.filter_cons, List.filter_nil, decide_eq_true_eq]
    have hlt : inflowAt c4txs 1 "B" < min_value_eth := by
      rw [h, show min_value_eth = 1 from rfl]
      norm_num
    unfold flashEntry
    rw [if_pos (Or.inl hlt)]
  have hC : flashEntry c4txs (1, "C") = none := by
    have h : outflowAt c4txs 1 "C" = 0 := by
      simp [outflowAt, c4txs, List.filter_cons, List.filter_nil, decide_eq_true_eq]
    have hlt : outflowAt c4txs 1 "C" < min_value_eth := by
      rw [h, show min_value_eth = 1 from rfl]
      norm_num
    unfold flashEntry
    rw [if_pos (Or.inr hlt)]
  have hA : flashEntry c4txs (1, "A") = some (flashSuspectOf c4txs (1, "A")) := by
    apply (flashEntry_eq_some_iff c4txs (1, "A") _).mpr
    refine ⟨?_, ?_, ?_, rfl⟩
    · show min_value_eth ≤ inflowAt c4txs 1 "A"
      rw [c4_inflow, show min_value_eth = 1 from rfl]
      norm_num
    · show min_value_eth ≤ outflowAt c4txs 1 "A"
      rw [c4_outflow, show min_value_eth = 1 from rfl]
      norm_num
    · show diffRatioAt c4txs 1 "A" ≤ value_tolerance
      rw [c4_diffRatio, show value_tolerance = 5 / 100 from rfl]
      norm_num
  unfold flash_detect
  rw [hpairs, List.filterMap_cons, List.filterMap_cons, List.filterMap_cons, hB, hA, hC,
    List.filterMap_nil]
  exact List.perm_singleton.mp (List.mergeSort_perm _ _)

/-- C4 counterexample: on `c4txs` the only reported entry (block 1, wallet
A) carries score 99.67, while `(1 - diff_ratio) * 100` is `299/3 = 99.666…`:
the reported score is the rounded value, not the raw formula value. -/
theorem flash_detect_score_rounds :
    (flash_detect c4txs).map FlashSuspect.wallet = ["A"] ∧
    (flash_detect c4txs).map FlashSuspect.flashLoanScore = [9967 / 100] ∧
    (1 - diffRatioAt c4txs 1 "A") * 100 = 299 / 3 ∧
    ((9967 : ℚ) / 100) ≠ 299 / 3 := by
  refine ⟨?_, ?_, ?_, by norm_num⟩
  · rw [c4_detect]
    rfl
  · rw [c4_detect]
    have : (flashSuspectOf c4txs (1, "A")).flashLoanScore = 9967 / 100 := by
      show roundTo 2 ((1 - diffRatioAt c4txs 1 "A") * 100) = 9967 / 100
      rw [c4_diffRatio]
      norm_num [roundTo, round_eq]
    rw [List.map_singleton, this]
  · rw [c4_diffRatio]
    norm_num

/-! ## Claims C5 and C10: shared wash-trading lemmas -/

lemma roundTo_one (n : ℕ) : roundTo n (1 : ℚ) = 1 := by
  simpa using roundTo_natCast n 1

lemma washEntry_eq_some_iff (g : Graph) (e : String × String × EdgeData) (p : WashPair) :
    washEntry g e = some p ↔
      ∃ dvu, get_edge g e.2.1 e.1 = some dvu ∧ ¬(e.2.2.weight = 0 ∧ dvu.weight = 0) ∧
        4 / 5 < similarityOf e.2.2.weight dvu.weight ∧ p = washPairOf e dvu := by
  unfold washEntry
  cases hge : get_edge g e.2.1 e.1 with
  | none =>
    constructor
    · intro h
      cases h
    · rintro ⟨dvu, hdvu, -⟩
      cases hdvu
  | some dvu =>
    dsimp only
    split_ifs with h1 h2
    · constructor
      · intro h
        cases h
      · rintro ⟨dvu2, hdvu2, hnz, -⟩
        rw [Option.some_inj] at hdvu2
        exact absurd (hdvu2 ▸ h1) hnz
    · rw [Option.some_inj]
      constructor
      · intro h
        exact ⟨dvu, rfl, h1, h2, h.symm⟩
      · rintro ⟨dvu2, hdvu2, -, -, hp⟩
        rw [Option.some_inj] at hdvu2
        rw [hp, hdvu2]
    · constructor
      · intro h
        cases h
      · rintro ⟨dvu2, hdvu2, -, hsim, -⟩
        rw [Option.some_inj] at hdvu2
        exact absurd (hdvu2 ▸ hsim) h2

lemma similarity_facts {x y : ℚ} (h : 4 / 5 < similarityOf x y) :
    0 < max x y ∧ similarityOf x y = min x y / max x y ∧ similarityOf x y ≤ 1 := by
  unfold similarityOf at h ⊢
  by_cases hmax : 0 < max x y
  · rw [if_pos hmax] at h ⊢
    exact ⟨hmax, rfl, (div_le_one hmax).mpr min_le_max⟩
  · rw [if_neg hmax] at h
    norm_num at h

lemma get_edge_mem {g : Graph} {u v : String} {d : EdgeData}
    (h : get_edge g u v = some d) : (u, v, d) ∈ g := by
  unfold get_edge at h
  rcases Option.map_eq_some'.mp h with ⟨e, hfind, hval⟩
  have hp := List.find?_some hfind
  have hmem := List.mem_of_find?_eq_some hfind
  rw [decide_eq_true_eq] at hp
  rcases e with ⟨a, b, c⟩
  obtain ⟨h1, h2⟩ := hp
  cases h1
  cases h2
  cases hval
  exact hmem

lemma get_edge_eq_some_of_mem :
    ∀ {g : Graph}, graphKeysNodup g →
      ∀ {u v : String} {d : EdgeData}, (u, v, d) ∈ g → get_edge g u v = some d := by
  intro g
  induction g with
  | nil =>
    intro _ u v d h
    cases h
  | cons e t ih =>
    intro hg u v d h
    have hg' : graphKeysNodup t := (List.nodup_cons.mp hg).2
    by_cases he : e.1 = u ∧ e.2.1 = v
    · unfold get_edge
      rw [List.find?_cons_of_pos _ (by simpa using he)]
      rcases List.mem_cons.mp h with heq | hmem
      · rw [← heq]
        rfl
      · exfalso
        have hkey : (u, v) ∈ t.map fun x => (x.1, x.2.1) :=
          List.mem_map_of_mem (fun x => (x.1, x.2.1)) hmem
        have : (e.1, e.2.1) ∉ t.map fun x => (x.1, x.2.1) := (List.nodup_cons.mp hg).1
        rw [he.1, he.2] at this
        exact this hkey
    · have hmem : (u, v, d) ∈ t := by
        rcases List.mem_cons.mp h with heq | hmem
        · exfalso
          apply he
          rw [← heq]
          exact ⟨rfl, rfl⟩
        · exact hmem
      unfold get_edge
      rw [List.find?_cons_of_neg _ (by simpa using he)]
      exact ih hg' hmem

lemma eq_of_mem_same_key {g : Graph} (hg : graphKeysNodup g)
    {e1 e2 : String × String × EdgeData} (h1 : e1 ∈ g) (h2 : e2 ∈ g)
    (hk : e1.1 = e2.1 ∧ e1.2.1 = e2.2.1) : e1 = e2 := by
  apply List.inj_on_of_nodup_map hg h1 h2
  rw [hk.1, hk.2]

lemma mem_of_mem_dedupPairs :
    ∀ (l : List WashPair) (seen : List (String × String)) (p : WashPair),
      p ∈ dedupPairs l seen → p ∈ l := by
  intro l
  induction l with
  | nil =>
    intro seen p h
    cases h
  | cons q t ih =>
    intro seen p h
    unfold dedupPairs at h
    split_ifs at h with hs
    · exact List.mem_cons_of_mem q (ih seen p h)
    · rcases List.mem_cons.mp h with h | h
      · exact List.mem_cons.mpr (Or.inl h)
      · exact List.mem_cons_of_mem q (ih _ p h)

lemma dedupPairs_keys_nodup :
    ∀ (l : List WashPair) (seen : List (String × String)),
      ((dedupPairs l seen).map pairKey).Nodup ∧
        ∀ p ∈ dedupPairs l seen, pairKey p ∉ seen := by
  intro l
  induction l with
  | nil =>
    intro seen
    refine ⟨by simp [dedupPairs], ?_⟩
    intro p h
    simp [dedupPairs] at h
  | cons q t ih =>
    intro seen
    unfold dedupPairs
    split_ifs with hs
    · exact ih seen
    · constructor
      · rw [List.map_cons, List.nodup_cons]
        constructor
        · intro hmem
          rcases List.mem_map.mp hmem with ⟨p, hp, hkey⟩
          exact ((ih (pairKey q :: seen)).2 p hp) (by rw [hkey]; exact List.mem_cons_self _ _)
        · exact (ih (pairKey q :: seen)).1
      · intro p hp
        rcases List.mem_cons.mp hp with h | h
        · rw [h]
          exact hs
        · intro hin
          exact ((ih (pairKey q :: seen)).2 p h) (List.mem_cons_of_mem _ hin)

lemma dedupPairs_covers :
    ∀ (l : List WashPair) (seen : List (String × String)) (p : WashPair),
      p ∈ l → pairKey p ∉ seen → ∃ q ∈ dedupPairs l seen, pairKey q = pairKey p := by
  intro l
  induction l with
  | nil =>
    intro seen p h
    cases h
  | cons r t ih =>
    intro seen p hp hseen
    unfold dedupPairs
    split_ifs with hs
    · rcases List.mem_cons.mp hp with h | h
      · rw [h] at hseen
        exact absurd hs hseen
      · exact ih seen p h hseen
    · rcases List.mem_cons.mp hp with h | h
      · exact ⟨r, List.mem_cons_self _ _, by rw [h]⟩
      · by_cases hk : pairKey p = pairKey r
        · exact ⟨r, List.mem_cons_self _ _, hk.symm⟩
        · have hnotin : pairKey p ∉ pairKey r :: seen := by
            intro hin
            rcases List.mem_cons.mp hin with h2 | h2
            · exact hk h2
            · exact hseen h2
          rcases ih (pairKey r :: seen) p h hnotin with ⟨q, hq, hkey⟩
          exact ⟨q, List.mem_cons_of_mem _ hq, hkey⟩

lemma mem_detect_wash_iff_dedup (g : Graph) (p : WashPair) :
    p ∈ detect_wash_trading g ↔ p ∈ dedupPairs (washRaw g) [] := by
  unfold detect_wash_trading
  rw [List.mem_mergeSort]

lemma mem_washRaw_iff (g : Graph) (p : WashPair) :
    p ∈ washRaw g ↔ ∃ e ∈ g, washEntry g e = some p := by
  unfold washRaw
  rw [List.mem_filterMap]

lemma roundTo4_fourFifths : roundTo 4 ((4 : ℚ) / 5) = 4 / 5 := by
  norm_num [roundTo, round_eq]

/-- C5 (amended): every pair reported by `detect_wash_trading` comes from a
bidirectional edge pair with weight similarity above 0.8; the reported
similarity (the true ratio rounded to 4 decimals) lies in `(0, 1]`; each
unordered pair key appears at most once in the result, and every qualifying
bidirectional pair is reported; each reported suspicion score is
`similarity*50 + min(count_uv + count_vu, 10)*5` rounded to 2 decimals. -/
theorem detect_wash_trading_spec (g : Graph) (hg : graphKeysNodup g) :
    (∀ p ∈ detect_wash_trading g,
      ∃ duv dvu, (p.walletA, p.walletB, duv) ∈ g ∧ (p.walletB, p.walletA, dvu) ∈ g ∧
        4 / 5 < similarityOf duv.weight dvu.weight ∧
        p.valueSimilarity = roundTo 4 (similarityOf duv.weight dvu.weight) ∧
        0 < p.valueSimilarity ∧ p.valueSimilarity ≤ 1 ∧
        p.suspicionScore = roundTo 2 (similarityOf duv.weight dvu.weight * 50 +
          ((min (duv.count + dvu.count) 10 : ℕ) : ℚ) * 5)) ∧
    ((detect_wash_trading g).map pairKey).Nodup ∧
    (∀ u v duv dvu, (u, v, duv) ∈ g → (v, u, dvu) ∈ g →
      4 / 5 < similarityOf duv.weight dvu.weight →
      ∃ p ∈ detect_wash_trading g, pairKey p = if u ≤ v then (u, v) else (v, u)) := by
  refine ⟨?_, ?_, ?_⟩
  · intro p hp
    have hraw : p ∈ washRaw g :=
      mem_of_mem_dedupPairs _ _ _ ((mem_detect_wash_iff_dedup g p).mp hp)
    rcases (mem_washRaw_iff g p).mp hraw with ⟨e, he, hsome⟩
    rcases (washEntry_eq_some_iff g e p).mp hsome with ⟨dvu, hge, hnz, hsim, hpe⟩
    subst hpe
    refine ⟨e.2.2, dvu, he, get_edge_mem hge, hsim, rfl, ?_, ?_, rfl⟩
    · have h45 : (4 : ℚ) / 5 ≤ similarityOf e.2.2.weight dvu.weight := hsim.le
      have := roundTo_mono 4 h45
      rw [roundTo4_fourFifths] at this
      calc (0 : ℚ) < 4 / 5 := by norm_num
      _ ≤ roundTo 4 (similarityOf e.2.2.weight dvu.weight) := this
    · exact roundTo_le_of_le 4 (similarity_facts hsim).2.2 (roundTo_one 4)
  · have hperm : (detect_wash_trading g).Perm (dedupPairs (washRaw g) []) :=
      List.mergeSort_perm _ _
    have hnodup := (dedupPairs_keys_nodup (washRaw g) []).1
    exact ((hperm.map pairKey).nodup_iff).mpr hnodup
  · intro u v duv dvu h1 h2 hsim
    have hge : get_edge g v u = some dvu := get_edge_eq_some_of_mem hg h2
    have hnz : ¬(((u, v, duv) : String × String × EdgeData).2.2.weight = 0 ∧ dvu.weight = 0) := by
      rintro ⟨hx, hy⟩
      have hmax := (similarity_facts hsim).1
      rw [show duv.weight = ((u, v, duv) : String × String × EdgeData).2.2.weight from rfl,
        hx, hy] at hmax
      simp at hmax
    have hentry : washEntry g (u, v, duv) = some (washPairOf (u, v, duv) dvu) :=
      (washEntry_eq_some_iff g (u, v, duv) _).mpr ⟨dvu, hge, hnz, hsim, rfl⟩
    have hrawmem : washPairOf (u, v, duv) dvu ∈ washRaw g :=
      (mem_washRaw_iff g _).mpr ⟨(u, v, duv), h1, hentry⟩
    rcases dedupPairs_covers (washRaw g) [] _ hrawmem (by simp) with ⟨q, hq, hkey⟩
    refine ⟨q, (mem_detect_wash_iff_dedup g q).mpr hq, ?_⟩
    rw [hkey]
    rfl

/-- Concrete graph for the C5 witness: A sent B 0.9 in total, B sent A 1.0,
similarity 0.9. -/
def c5wg : Graph := [("A", "B", ⟨9 / 10, 2, 1⟩), ("B", "A", ⟨1, 3, 1⟩)]

/-- Closed instance of `detect_wash_trading_spec`: the qualifying pair
{A, B} of `c5wg` is reported. -/
theorem detect_wash_trading_spec_witness :
    ∃ p ∈ detect_wash_trading c5wg,
      pairKey p = if ("A" : String) ≤ "B" then ("A", "B") else ("B", "A") :=
  (detect_wash_trading_spec c5wg (by decide)).2.2 "A" "B" ⟨9 / 10, 2, 1⟩ ⟨1, 3, 1⟩
    (by simp [c5wg]) (by simp [c5wg])
    (by
      have h : similarityOf ((9 : ℚ) / 10) 1 = 9 / 10 := by
        unfold similarityOf
        norm_num [max_def, min_def]
      rw [show (⟨9 / 10, 2, 1⟩ : EdgeData).weight = (9 : ℚ) / 10 from rfl,
        show (⟨1, 3, 1⟩ : EdgeData).weight = (1 : ℚ) from rfl, h]
      norm_num)

/-- Edge data for the C5 counterexample: A sent B 0.84712 in total. -/
def c5d1 : EdgeData := ⟨10589 / 12500, 1, 1⟩

/-- Edge data for the C5 counterexample: B sent A 1.0 in total. -/
def c5d2 : EdgeData := ⟨1, 1, 1⟩

/-- Concrete graph for the C5 counterexample: similarity 0.84712, whose
suspicion formula value 52.356 is not a 2-decimal number. -/
def c5g : Graph := [("A", "B", c5d1), ("B", "A", c5d2)]

lemma c5_sim : similarityOf ((10589 : ℚ) / 12500) 1 = 10589 / 12500 := by
  unfold similarityOf
  norm_num [max_def, min_def]

lemma c5_sim' : similarityOf (1 : ℚ) ((10589 : ℚ) / 12500) = 10589 / 12500 := by
  unfold similarityOf
  norm_num [max_def, min_def]

lemma c5_entry1 :
    washEntry c5g ("A", "B", c5d1) = some (washPairOf ("A", "B", c5d1) c5d2) := by
  apply (washEntry_eq_some_iff c5g ("A", "B", c5d1) _).mpr
  refine ⟨c5d2, get_edge_eq_some_of_mem (by decide) (by simp [c5g]), ?_, ?_, rfl⟩
  · show ¬(c5d1.weight = 0 ∧ c5d2.weight = 0)
    rw [show c5d1.weight = (10589 : ℚ) / 12500 from rfl]
    norm_num
  · show (4 : ℚ) / 5 < similarityOf c5d1.weight c5d2.weight
    rw [show c5d1.weight = (10589 : ℚ) / 12500 from rfl,
      show c5d2.weight = (1 : ℚ) from rfl, c5_sim]
    norm_num

lemma c5_entry2 :
    washEntry c5g ("B", "A", c5d2) = some (washPairOf ("B", "A", c5d2) c5d1) := by
  apply (washEntry_eq_some_iff c5g ("B", "A", c5d2) _).mpr
  refine ⟨c5d1, get_edge_eq_some_of_mem (by decide) (by simp [c5g]), ?_, ?_, rfl⟩
  · show ¬(c5d2.weight = 0 ∧ c5d1.weight = 0)
    rw [show c5d2.weight = (1 : ℚ) from rfl]
    norm_num
  · show (4 : ℚ) / 5 < similarityOf c5d2.weight c5d1.weight
    rw [show c5d2.weight = (1 : ℚ) from rfl,
      show c5d1.weight = (10589 : ℚ) / 12500 from rfl, c5_sim']
    norm_num

lemma c5_key1 : pairKey (washPairOf ("A", "B", c5d1) c5d2) = ("A", "B") := by
  show (if ("A" : String) ≤ "B" then (("A" : String), ("B" : String)) else ("B", "A")) =
    ("A", "B")
  rw [if_pos (by rw [String.le_iff_toList_le]; decide)]

lemma c5_key2 : pairKey (washPairOf ("B", "A", c5d2) c5d1) = ("A", "B") := by
  show (if ("B" : String) ≤ "A" then (("B" : String), ("A" : String)) else ("A", "B")) =
    ("A", "B")
  rw [if_neg (by rw [String.le_iff_toList_le]; decide)]

lemma c5_detect :
    detect_wash_trading c5g = [washPairOf ("A", "B", c5d1) c5d2] := by
  have hraw : washRaw c5g = [washPairOf ("A", "B", c5d1) c5d2,
      washPairOf ("B", "A", c5d2) c5d1] := by
    have h1 := c5_entry1
    have h2 := c5_entry2
    unfold c5g at h1 h2 ⊢
    unfold washRaw
    rw [List.filterMap_cons, List.filterMap_cons, List.filterMap_nil, h1, h2]
  have hdedup : dedupPairs [washPairOf ("A", "B", c5d1) c5d2,
      washPairOf ("B", "A", c5d2) c5d1] [] = [washPairOf ("A", "B", c5d1) c5d2] := by
    simp [dedupPairs, c5_key1, c5_key2]
  unfold detect_wash_trading
  rw [hraw, hdedup]
  exact List.perm_singleton.mp (List.mergeSort_perm _ _)

/-- C5 counterexample: on `c5g` the single reported pair has suspicion score
52.36, while `similarity*50 + min(count_uv + count_vu, 10)*5` is 52.356 with
the true similarity 0.84712 (and 52.355 with the reported 4-decimal
similarity 0.8471): the reported score is the rounded value, not the raw
formula value. -/
theorem detect_wash_trading_score_rounds :
    (detect_wash_trading c5g).map WashPair.suspicionScore = [1309 / 25] ∧
    (detect_wash_trading c5g).map WashPair.valueSimilarity = [8471 / 10000] ∧
    similarityOf ((10589 : ℚ) / 12500) 1 * 50 + ((min (1 + 1) 10 : ℕ) : ℚ) * 5 = 13089 / 250 ∧
    ((1309 : ℚ) / 25) ≠ 13089 / 250 ∧
    ((8471 : ℚ) / 10000) * 50 + ((min (1 + 1) 10 : ℕ) : ℚ) * 5 = 10471 / 200 ∧
    ((1309 : ℚ) / 25) ≠ 10471 / 200 := by
  refine ⟨?_, ?_, ?_, by norm_num, by norm_num, by norm_num⟩
  · rw [c5_detect, List.map_singleton]
    have : (washPairOf ("A", "B", c5d1) c5d2).suspicionScore = 1309 / 25 := by
      show roundTo 2 (similarityOf c5d1.weight c5d2.weight * 50 +
        ((min (c5d1.count + c5d2.count) 10 : ℕ) : ℚ) * 5) = 1309 / 25
      rw [show c5d1.weight = (10589 : ℚ) / 12500 from rfl,
        show c5d2.weight = (1 : ℚ) from rfl, c5_sim,
        show c5d1.count = 1 from rfl, show c5d2.count = 1 from rfl]
      norm_num [roundTo, round_eq]
    rw [this]
  · rw [c5_detect, List.map_singleton]
    have : (washPairOf ("A", "B", c5d1) c5d2).valueSimilarity = 8471 / 10000 := by
      show roundTo 4 (similarityOf c5d1.weight c5d2.weight) = 8471 / 10000
      rw [show c5d1.weight = (10589 : ℚ) / 12500 from rfl,
        show c5d2.weight = (1 : ℚ) from rfl, c5_sim]
      norm_num [roundTo, round_eq]
    rw [this]
  · rw [c5_sim]
    norm_num

/-! ## Claim C10 -/

lemma pairKey_washPairOf_diag (e : String × String × EdgeData) (dvu : EdgeData) (u : String)
    (h : pairKey (washPairOf e dvu) = (u, u)) : e.1 = u ∧ e.2.1 = u := by
  unfold pairKey washPairOf at h
  dsimp only at h
  split_ifs at h
  · rw [Prod.ext_iff] at h
    exact ⟨h.1, h.2⟩
  · rw [Prod.ext_iff] at h
    exact ⟨h.2, h.1⟩

/-- C10: a positive-weight self-loop edge `(u, u)` (which `build_graph`
keeps when a transaction's sender equals its recipient) makes
`detect_wash_trading` report a pair with both wallets `u`, similarity
exactly 1 and suspicion score `50 + min(2*count, 10)*5` — a wallet can be
flagged as wash-trading with itself. -/
theorem self_loop_wash_spec (g : Graph) (u : String) (d : EdgeData)
    (hg : graphKeysNodup g) (hmem : (u, u, d) ∈ g) (hw : 0 < d.weight) :
    (∃ p ∈ detect_wash_trading g, p.walletA = u ∧ p.walletB = u ∧
      p.valueSimilarity = 1 ∧
      p.suspicionScore = 50 + ((min (2 * d.count) 10 : ℕ) : ℚ) * 5) ∧
    (∀ (txs : List Tx) (t : Tx), t ∈ txs → t.toAddress = some t.fromAddress →
      ∃ d2, (t.fromAddress, t.fromAddress, d2) ∈ build_graph txs) := by
  constructor
  · have hge : get_edge g u u = some d := get_edge_eq_some_of_mem hg hmem
    have hwne : d.weight ≠ 0 := ne_of_gt hw
    have hsim : similarityOf d.weight d.weight = 1 := by
      unfold similarityOf
      rw [max_self, min_self, if_pos hw, div_self hwne]
    have hsimgt : 4 / 5 < similarityOf d.weight d.weight := by
      rw [hsim]
      norm_num
    have hnz : ¬(((u, u, d) : String × String × EdgeData).2.2.weight = 0 ∧ d.weight = 0) := by
      rintro ⟨h1, -⟩
      exact hwne h1
    have hentry : washEntry g (u, u, d) = some (washPairOf (u, u, d) d) :=
      (washEntry_eq_some_iff g (u, u, d) _).mpr ⟨d, hge, hnz, hsimgt, rfl⟩
    have hrawmem : washPairOf (u, u, d) d ∈ washRaw g :=
      (mem_washRaw_iff g _).mpr ⟨(u, u, d), hmem, hentry⟩
    have hkey0 : pairKey (washPairOf (u, u, d) d) = (u, u) := by
      show (if u ≤ u then (u, u) else (u, u)) = (u, u)
      rw [if_pos (le_refl u)]
    rcases dedupPairs_covers (washRaw g) [] _ hrawmem (by simp) with ⟨q, hq, hkeyq⟩
    rw [hkey0] at hkeyq
    have hqraw : q ∈ washRaw g := mem_of_mem_dedupPairs _ _ _ hq
    rcases (mem_washRaw_iff g q).mp hqraw with ⟨e, he, hesome⟩
    rcases (washEntry_eq_some_iff g e q).mp hesome with ⟨dvu, hge2, hnz2, hsim2, hqe⟩
    have hdiag : e.1 = u ∧ e.2.1 = u :=
      pairKey_washPairOf_diag e dvu u (by rw [← hqe]; exact hkeyq)
    have hee : e = (u, u, d) := eq_of_mem_same_key hg he hmem ⟨hdiag.1, hdiag.2⟩
    subst hee
    have hge2' : get_edge g u u = some dvu := hge2
    have hdvu : dvu = d := Option.some_inj.mp (hge2'.symm.trans hge)
    subst hdvu
    refine ⟨q, (mem_detect_wash_iff_dedup g q).mpr hq, ?_⟩
    subst hqe
    refine ⟨rfl, rfl, ?_, ?_⟩
    · show roundTo 4 (similarityOf dvu.weight dvu.weight) = 1
      rw [hsim]
      exact roundTo_one 4
    · show roundTo 2 (similarityOf dvu.weight dvu.weight * 50 +
        ((min (dvu.count + dvu.count) 10 : ℕ) : ℚ) * 5) =
        50 + ((min (2 * dvu.count) 10 : ℕ) : ℚ) * 5
      rw [hsim, two_mul]
      have hcast : (1 : ℚ) * 50 + ((min (dvu.count + dvu.count) 10 : ℕ) : ℚ) * 5 =
          ((50 + min (dvu.count + dvu.count) 10 * 5 : ℕ) : ℚ) := by
        push_cast
        ring
      rw [hcast, roundTo_natCast]
      push_cast
      ring
  · intro txs t ht hself
    have hkey : (t.fromAddress, t.fromAddress) ∈ edgeKeys txs := by
      unfold edgeKeys
      rw [List.mem_dedup]
      apply List.mem_filterMap.mpr
      refine ⟨t, ht, ?_⟩
      rw [hself]
      rfl
    exact ⟨_, List.mem_map_of_mem _ hkey⟩

/-- Concrete graph for the C10 witness: a single self-loop on wallet S with
weight 2 from 3 transactions. -/
def c10g : Graph := [("S", "S", ⟨2, 3, 1⟩)]

/-- Closed instance of `self_loop_wash_spec` on `c10g`. -/
theorem self_loop_wash_spec_witness :
    ∃ p ∈ detect_wash_trading c10g, p.walletA = "S" ∧ p.walletB = "S" ∧
      p.valueSimilarity = 1 ∧
      p.suspicionScore = 50 + ((min (2 * (⟨2, 3, 1⟩ : EdgeData).count) 10 : ℕ) : ℚ) * 5 :=
  (self_loop_wash_spec c10g "S" ⟨2, 3, 1⟩ (by decide) (by simp [c10g])
    (by show (0 : ℚ) < 2; norm_num)).1

/-! ## Claim C6 -/

lemma mem_graph_nodes_iff (g : Graph) (a : String) :
    a ∈ graph_nodes g ↔ ∃ e ∈ g, a = e.1 ∨ a = e.2.1 := by
  unfold graph_nodes
  simp [List.mem_dedup, List.mem_flatMap]

lemma neighbors_nonempty (g : Graph) (a : String) (h : a ∈ graph_nodes g) :
    neighborsOf g a ≠ [] := by
  rcases (mem_graph_nodes_iff g a).mp h with ⟨e, he, hcase⟩
  intro hnil
  have hnone : ∀ x, x ∉ neighborsOf g a := by
    rw [hnil]
    simp
  rcases hcase with h1 | h1
  · apply hnone e.2.1
    unfold neighborsOf
    rw [List.mem_dedup, List.mem_append]
    left
    unfold successorsOf
    rw [List.mem_dedup]
    exact List.mem_map.mpr
      ⟨e, List.mem_filter.mpr ⟨he, by rw [decide_eq_true_eq]; exact h1.symm⟩, rfl⟩
  · apply hnone e.1
    unfold neighborsOf
    rw [List.mem_dedup, List.mem_append]
    right
    unfold predecessorsOf
    rw [List.mem_dedup]
    exact List.mem_map.mpr
      ⟨e, List.mem_filter.mpr ⟨he, by rw [decide_eq_true_eq]; exact h1.symm⟩, rfl⟩

lemma degree_centrality_nonneg (g : Graph) (a : String) : 0 ≤ degree_centrality g a := by
  unfold degree_centrality
  split_ifs with h1 h2
  · norm_num
  · apply div_nonneg (by positivity)
    have hge : 2 ≤ (graph_nodes g).length := not_le.mp h2
    have : (2 : ℚ) ≤ ((graph_nodes g).length : ℚ) := by exact_mod_cast hge
    linarith
  · norm_num

/-- C6 (amended): `get_wallet_graph_score` returns 0 for an address with no
graph presence, and otherwise
`degree_centrality*30 + bidirectional_neighbor_ratio*40 + min(degree,20)*1.5`
rounded to 2 decimals and clamped at 100; the result always lies in
`[0, 100]`. -/
theorem get_wallet_graph_score_spec (g : Graph) (a : String) :
    (a ∉ graph_nodes g → get_wallet_graph_score g a = 0) ∧
    (a ∈ graph_nodes g →
      neighborsOf g a ≠ [] ∧
      get_wallet_graph_score g a =
        min (roundTo 2 (degree_centrality g a * 30 +
          ((bidirectionalCount g a : ℚ) / ((neighborsOf g a).length : ℚ)) * 40 +
          ((min (node_degree g a) 20 : ℕ) : ℚ) * (3 / 2))) 100) ∧
    0 ≤ get_wallet_graph_score g a ∧ get_wallet_graph_score g a ≤ 100 := by
  have hs1 : 0 ≤ degree_centrality g a * 30 :=
    mul_nonneg (degree_centrality_nonneg g a) (by norm_num)
  have hs2 : (0 : ℚ) ≤ (bidirectionalCount g a : ℚ) / ((neighborsOf g a).length : ℚ) * 40 :=
    mul_nonneg (div_nonneg (by positivity) (by positivity)) (by norm_num)
  have hs3 : (0 : ℚ) ≤ ((min (node_degree g a) 20 : ℕ) : ℚ) * (3 / 2) := by positivity
  have hrange : 0 ≤ get_wallet_graph_score g a ∧ get_wallet_graph_score g a ≤ 100 := by
    unfold get_wallet_graph_score
    split_ifs with hmem hne
    · refine ⟨le_min (roundTo_nonneg 2 ?_) (by norm_num), min_le_right _ _⟩
      push_cast at hs1 hs2 hs3 ⊢
      linarith
    · refine ⟨le_min (roundTo_nonneg 2 ?_) (by norm_num), min_le_right _ _⟩
      push_cast at hs1 hs3 ⊢
      linarith
    · norm_num
  refine ⟨?_, ?_, hrange.1, hrange.2⟩
  · intro h
    unfold get_wallet_graph_score
    rw [if_neg h]
  · intro h
    have hne := neighbors_nonempty g a h
    refine ⟨hne, ?_⟩
    unfold get_wallet_graph_score
    rw [if_pos h]
    show min (roundTo 2 (degree_centrality g a * 30 +
      (if neighborsOf g a ≠ [] then
        ((bidirectionalCount g a : ℚ) / ((neighborsOf g a).length : ℚ)) * 40 else 0) +
      ((min (node_degree g a) 20 : ℕ) : ℚ) * (3 / 2))) 100 = _
    rw [if_pos hne]

/-- Concrete graph for the C6 witness: one edge A to B. -/
def c6wg : Graph := [("A", "B", ⟨1, 1, 1⟩)]

/-- Closed instance of `get_wallet_graph_score_spec` at a node of `c6wg`. -/
theorem get_wallet_graph_score_spec_witness :
    neighborsOf c6wg "A" ≠ [] ∧
    get_wallet_graph_score c6wg "A" =
      min (roundTo 2 (degree_centrality c6wg "A" * 30 +
        ((bidirectionalCount c6wg "A" : ℚ) / ((neighborsOf c6wg "A").length : ℚ)) * 40 +
        ((min (node_degree c6wg "A") 20 : ℕ) : ℚ) * (3 / 2))) 100 :=
  (get_wallet_graph_score_spec c6wg "A").2.1 (by decide)

/-- Concrete graph for the C6 counterexample: 8 nodes, so wallet A's degree
centrality is 1/7 and the claimed formula value 81/14 has more than 2
decimals. -/
def c6g : Graph :=
  [("A", "B", ⟨1, 1, 1⟩), ("C", "D", ⟨1, 1, 1⟩), ("E", "F", ⟨1, 1, 1⟩), ("G", "H", ⟨1, 1, 1⟩)]

/-- C6 counterexample: on `c6g` the score of A is 5.79, while the claimed
raw formula value is `81/14 = 5.7857…` (clamping does not change it): the
code rounds to 2 decimals before clamping, which the claim omits. -/
theorem get_wallet_graph_score_rounds :
    get_wallet_graph_score c6g "A" = 579 / 100 ∧
    degree_centrality c6g "A" * 30 +
      ((bidirectionalCount c6g "A" : ℚ) / ((neighborsOf c6g "A").length : ℚ)) * 40 +
      ((min (node_degree c6g "A") 20 : ℕ) : ℚ) * (3 / 2) = 81 / 14 ∧
    ((579 : ℚ) / 100) ≠ 81 / 14 := by
  have hmem : "A" ∈ graph_nodes c6g := by decide
  have hlen : (graph_nodes c6g).length = 8 := by decide
  have hdeg : node_degree c6g "A" = 1 := by decide
  have hbid : bidirectionalCount c6g "A" = 0 := by decide
  have hnbr : neighborsOf c6g "A" = ["B"] := by decide
  have hdc : degree_centrality c6g "A" = 1 / 7 := by
    unfold degree_centrality
    rw [if_pos hmem, if_neg (by rw [hlen]; norm_num), hdeg, hlen]
    norm_num
  have hformula : degree_centrality c6g "A" * 30 +
      ((bidirectionalCount c6g "A" : ℚ) / ((neighborsOf c6g "A").length : ℚ)) * 40 +
      ((min (node_degree c6g "A") 20 : ℕ) : ℚ) * (3 / 2) = 81 / 14 := by
    rw [hdc, hdeg, hbid, hnbr]
    norm_num
  refine ⟨?_, hformula, by norm_num⟩
  unfold get_wallet_graph_score
  rw [if_pos hmem]
  show min (roundTo 2 (degree_centrality c6g "A" * 30 +
    (if neighborsOf c6g "A" ≠ [] then
      ((bidirectionalCount c6g "A" : ℚ) / ((neighborsOf c6g "A").length : ℚ)) * 40 else 0) +
    ((min (node_degree c6g "A") 20 : ℕ) : ℚ) * (3 / 2))) 100 = 579 / 100
  rw [if_pos (by rw [hnbr]; simp), hformula]
  norm_num [roundTo, round_eq, min_def]

/-! ## Claim C7 -/

lemma mem_edgeKeys_iff (txs : List Tx) (u v : String) :
    (u, v) ∈ edgeKeys txs ↔ ∃ t ∈ txs, t.fromAddress = u ∧ t.toAddress = some v := by
  unfold edgeKeys
  rw [List.mem_dedup, List.mem_filterMap]
  constructor
  · rintro ⟨t, ht, hmap⟩
    rcases Option.map_eq_some'.mp hmap with ⟨r, hr, hpair⟩
    rw [Prod.ext_iff] at hpair
    have h1 : t.fromAddress = u := hpair.1
    have h2 : r = v := hpair.2
    exact ⟨t, ht, h1, by rw [hr, h2]⟩
  · rintro ⟨t, ht, h1, h2⟩
    refine ⟨t, ht, ?_⟩
    rw [h2]
    simp [h1]

lemma mem_build_graph_iff (txs : List Tx) (u v : String) (d : EdgeData) :
    (u, v, d) ∈ build_graph txs ↔
      ((u, v) ∈ edgeKeys txs ∧
        d = { weight := ((txsBetween txs u v).map Tx.valueEth).sum
              count := (txsBetween txs u v).length
              blocks := ((txsBetween txs u v).map Tx.blockNumber).dedup.length }) := by
  unfold build_graph
  rw [List.mem_map]
  constructor
  · rintro ⟨k, hk, hkeq⟩
    rw [Prod.ext_iff] at hkeq
    obtain ⟨h1, h2⟩ := hkeq
    rw [Prod.ext_iff] at h2
    obtain ⟨h2a, h2b⟩ := h2
    have hkuv : k = (u, v) := Prod.ext_iff.mpr ⟨h1, h2a⟩
    subst hkuv
    exact ⟨hk, h2b.symm⟩
  · rintro ⟨hk, hd⟩
    refine ⟨(u, v), hk, ?_⟩
    rw [hd]

/-- C7 (amended): the nodes of the graph built by `build_graph` are exactly
the addresses appearing as sender or recipient of some transaction that has
a recipient (transactions with no recipient are skipped whole, so their
senders contribute no node); a directed edge `(u, v)` exists exactly when
`u` sent at least one such transaction to `v`, and it carries the summed
value, the transaction count and the distinct-block count. -/
theorem build_graph_spec (txs : List Tx) (a u v : String) :
    (a ∈ graph_nodes (build_graph txs) ↔
      ∃ t ∈ txs, t.toAddress ≠ none ∧ (t.fromAddress = a ∨ t.toAddress = some a)) ∧
    ((∃ d, (u, v, d) ∈ build_graph txs) ↔
      ∃ t ∈ txs, t.fromAddress = u ∧ t.toAddress = some v) ∧
    (∀ d, (u, v, d) ∈ build_graph txs →
      d.weight = ((txsBetween txs u v).map Tx.valueEth).sum ∧
      d.count = (txsBetween txs u v).length ∧
      d.blocks = ((txsBetween txs u v).map Tx.blockNumber).dedup.length) := by
  refine ⟨?_, ?_, ?_⟩
  · rw [mem_graph_nodes_iff]
    constructor
    · rintro ⟨e, he, hcase⟩
      unfold build_graph at he
      rcases List.mem_map.mp he with ⟨k, hk, hkeq⟩
      rcases (mem_edgeKeys_iff txs k.1 k.2).mp hk with ⟨t, ht, h1, h2⟩
      rcases hcase with hcl | hcr
      · rw [← hkeq] at hcl
        exact ⟨t, ht, by rw [h2]; simp, Or.inl (h1.trans hcl.symm)⟩
      · rw [← hkeq] at hcr
        exact ⟨t, ht, by rw [h2]; simp, Or.inr (by rw [h2, hcr])⟩
    · rintro ⟨t, ht, hne, hcase⟩
      rcases Option.ne_none_iff_exists'.mp hne with ⟨r, hr⟩
      have hkey : (t.fromAddress, r) ∈ edgeKeys txs :=
        (mem_edgeKeys_iff txs _ _).mpr ⟨t, ht, rfl, hr⟩
      have hedge := (mem_build_graph_iff txs t.fromAddress r _).mpr ⟨hkey, rfl⟩
      rcases hcase with hcl | hcr
      · exact ⟨(t.fromAddress, r, _), hedge, Or.inl hcl.symm⟩
      · have hra : r = a := Option.some_inj.mp (hr.symm.trans hcr)
        subst hra
        exact ⟨(t.fromAddress, r, _), hedge, Or.inr rfl⟩
  · constructor
    · rintro ⟨d, hd⟩
      rcases (mem_build_graph_iff txs u v d).mp hd with ⟨hk, -⟩
      exact (mem_edgeKeys_iff txs u v).mp hk
    · rintro ⟨t, ht, h1, h2⟩
      exact ⟨_, (mem_build_graph_iff txs u v _).mpr
        ⟨(mem_edgeKeys_iff txs u v).mpr ⟨t, ht, h1, h2⟩, rfl⟩⟩
  · intro d hd
    rcases (mem_build_graph_iff txs u v d).mp hd with ⟨-, hdeq⟩
    rw [hdeq]
    exact ⟨rfl, rfl, rfl⟩

/-- Concrete input for the C7 witness: one transaction A to B. -/
def c7wtxs : List Tx := [⟨"h1", 1, "A", some "B", 3, 0⟩]

/-- Closed instance of `build_graph_spec`: the sender of a transaction with
a recipient is a node. -/
theorem build_graph_spec_witness : "A" ∈ graph_nodes (build_graph c7wtxs) :=
  (build_graph_spec c7wtxs "A" "A" "B").1.mpr
    ⟨⟨"h1", 1, "A", some "B", 3, 0⟩, by simp [c7wtxs], by simp, Or.inl rfl⟩

/-- Concrete input for the C7 counterexample: a single transaction whose
sender A has no recipient (contract creation). -/
def c7txs : List Tx := [⟨"h0", 1, "A", none, 5, 0⟩]

/-- C7 counterexample: A appears as the sender of a transaction, yet the
graph built from `c7txs` has no node A, because `build_graph` skips
transactions without a recipient before adding any endpoint. -/
theorem build_graph_drops_recipientless_sender :
    "A" ∉ graph_nodes (build_graph c7txs) ∧ c7txs.map Tx.fromAddress = ["A"] := by
  constructor
  · decide
  · rfl

/-- Closed instance of `compute_risk_severity_spec` at the boundary 75. -/
theorem compute_risk_severity_spec_witness : severity_of 75 = "critical" :=
  (compute_risk_severity_spec 75).1.mpr (by norm_num)
